import Mathlib

/-!
Verification development for the host-side UHD wrapper (uhd-usrp).

This file shallowly embeds the Rust code of `src/uhd-usrp/src/ffi.rs`,
`src/uhd-usrp/src/usrp/metadata.rs` and `src/uhd-usrp/src/usrp/device.rs`
into Lean. Pointers are modelled as natural numbers (`0` = null), native
status codes as natural numbers (`0` = success), fallible Rust functions as
`Except UhdError` values, and Rust panics as `Option.none`. Byte buffers and
Rust strings are modelled as lists of naturals (bytes, respectively Unicode
scalar values), with an explicit executable UTF-8 encoder/decoder mirroring
the Rust standard library's strict and lossy conversions.
-/

/-- Modelled from the spec: the host-side error enumeration `UhdError` lives in
`crate::error`, which is not under `src/`. Per the spec (§7) it is a closed
enumeration containing at least `Unknown`, `Index`, `AllocationFailed`,
`InvalidArgument` and `Timeout`. -/
inductive UhdError where
  | Unknown
  | Index
  | AllocationFailed
  | InvalidArgument
  | Timeout
  deriving DecidableEq, Repr

/-- Modelled from the spec: the `try_uhd!` macro lives in `crate::error`, which
is not under `src/`. Per the spec (§7), a native status code of `0` means
success and every other code is mapped into the closed error enumeration, with
unmapped codes collapsing to `Unknown`. No claim in this development depends on
which particular non-`Unknown` variant a nonzero code maps to, so the mapping
is abstracted to its forced behaviour: `0` succeeds, nonzero fails. -/
def try_uhd (status : Nat) : Except UhdError Unit :=
  if status = 0 then Except.ok () else Except.error UhdError.Unknown

/-- Observable result of one call to a native allocator function
`unsafe extern fn(*mut *mut T) -> u32`: the returned status code and the
pointer value it wrote through its out-parameter (`0` models null). -/
structure AllocResult where
  status : Nat
  ptr : Nat
  deriving DecidableEq, Repr

/-- Shallow embedding of `OwnedHandle<T>` (ffi.rs lines 18-22): the wrapped
pointer plus an identifier for the specific free function held as data. -/
structure OwnedHandle where
  handle : Nat
  freeId : Nat
  deriving DecidableEq, Repr

/-- Embedding of `OwnedHandle::new` (ffi.rs lines 42-54): run the allocator,
translate its status via `try_uhd!` (propagating failure before the pointer is
ever read), then reject a null pointer with `UhdError::Unknown`, otherwise wrap
pointer and free function. -/
def OwnedHandle.new (alloc : AllocResult) (freeId : Nat) : Except UhdError OwnedHandle := do
  try_uhd alloc.status
  if alloc.ptr = 0 then
    Except.error UhdError.Unknown
  else
    Except.ok { handle := alloc.ptr, freeId := freeId }

/-- Embedding of `OwnedHandle::from_ptr` (ffi.rs lines 69-74): panics
(`Option.none`) if the adopted pointer is null, otherwise wraps it. -/
def OwnedHandle.from_ptr (handle : Nat) (freeId : Nat) : Option OwnedHandle :=
  if handle = 0 then none else some { handle := handle, freeId := freeId }

/-- Embedding of `OwnedHandle::as_ptr` (ffi.rs lines 77-79). -/
def OwnedHandle.as_ptr (h : OwnedHandle) : Nat := h.handle

/-- Embedding of `OwnedHandle::as_mut_ptr` (ffi.rs lines 82-84). -/
def OwnedHandle.as_mut_ptr (h : OwnedHandle) : Nat := h.handle

/-- Embedding of `Deref::deref` / `DerefMut::deref_mut` for `OwnedHandle`
(ffi.rs lines 100-112): `as_ref().expect(..)` panics (`Option.none`) on a null
pointer and otherwise yields a reference to the pointee (modelled by the
pointer value itself). -/
def OwnedHandle.deref (h : OwnedHandle) : Option Nat :=
  if h.handle = 0 then none else some h.handle

/-- Observable events of a handle's lifetime: one allocator invocation, or one
invocation of the free function identified by `freeId`. -/
inductive HandleEvent where
  | allocCall
  | freeCall (freeId : Nat)
  deriving DecidableEq, Repr

/-- Embedding of `impl Drop for OwnedHandle` (ffi.rs lines 92-98): dropping the
wrapper invokes its stored free function exactly once. -/
def OwnedHandle.dropEvents (h : OwnedHandle) : List HandleEvent :=
  [HandleEvent.freeCall h.freeId]

/-- Event trace of a full `OwnedHandle` lifetime: `new` unconditionally invokes
the allocator once (ffi.rs line 47); if `new` fails the wrapper never exists and
nothing further happens, and if it succeeds the wrapper's `Drop` impl runs at
the end of its scope. -/
def OwnedHandle.lifecycleEvents (alloc : AllocResult) (freeId : Nat) : List HandleEvent :=
  HandleEvent.allocCall ::
    (match OwnedHandle.new alloc freeId with
     | Except.error _ => []
     | Except.ok h => h.dropEvents)

/-- Whether a code point is a Unicode scalar value (what a Rust `char`, hence
every position of a Rust `String`, is guaranteed to be). -/
def ValidScalar (c : Nat) : Prop :=
  c < 0x110000 ∧ (c < 0xD800 ∨ 0xE000 ≤ c)

instance (c : Nat) : Decidable (ValidScalar c) := by
  unfold ValidScalar; infer_instance

/-- UTF-8 encoding of one Unicode scalar value, as performed by the Rust
standard library when a `String` is viewed as bytes. -/
def utf8EncodeChar (c : Nat) : List Nat :=
  if c < 0x80 then [c]
  else if c < 0x800 then [0xC0 + c / 0x40, 0x80 + c % 0x40]
  else if c < 0x10000 then
    [0xE0 + c / 0x1000, 0x80 + c / 0x40 % 0x40, 0x80 + c % 0x40]
  else
    [0xF0 + c / 0x40000, 0x80 + c / 0x1000 % 0x40, 0x80 + c / 0x40 % 0x40, 0x80 + c % 0x40]

/-- UTF-8 encoding of a sequence of Unicode scalar values: the byte content of
a Rust `String` holding that text. -/
def utf8Encode : List Nat → List Nat
  | [] => []
  | c :: cs => utf8EncodeChar c ++ utf8Encode cs

/-- Decoded scalar value of a two-byte UTF-8 sequence. -/
def utf8Val2 (b b1 : Nat) : Nat := (b - 0xC0) * 0x40 + (b1 - 0x80)

/-- Decoded scalar value of a three-byte UTF-8 sequence. -/
def utf8Val3 (b b1 b2 : Nat) : Nat :=
  (b - 0xE0) * 0x1000 + (b1 - 0x80) * 0x40 + (b2 - 0x80)

/-- Decoded scalar value of a four-byte UTF-8 sequence. -/
def utf8Val4 (b b1 b2 b3 : Nat) : Nat :=
  (b - 0xF0) * 0x40000 + (b1 - 0x80) * 0x1000 + (b2 - 0x80) * 0x40 + (b3 - 0x80)

/-- Whether a byte is a UTF-8 continuation byte. -/
def utf8Cont (b : Nat) : Prop := 0x80 ≤ b ∧ b < 0xC0

instance (b : Nat) : Decidable (utf8Cont b) := by
  unfold utf8Cont; infer_instance

/-- Validity of a three-byte UTF-8 sequence with lead byte in `[0xE0, 0xF0)`:
continuation bytes, no overlong encoding, no surrogate. -/
def utf8Guard3 (b b1 b2 : Nat) : Prop :=
  utf8Cont b1 ∧ utf8Cont b2 ∧ 0x800 ≤ utf8Val3 b b1 b2 ∧
    (utf8Val3 b b1 b2 < 0xD800 ∨ 0xE000 ≤ utf8Val3 b b1 b2)

instance (b b1 b2 : Nat) : Decidable (utf8Guard3 b b1 b2) := by
  unfold utf8Guard3; infer_instance

/-- Validity of a four-byte UTF-8 sequence with lead byte in `[0xF0, 0xF5)`:
continuation bytes, no overlong encoding, in the Unicode range. -/
def utf8Guard4 (b b1 b2 b3 : Nat) : Prop :=
  utf8Cont b1 ∧ utf8Cont b2 ∧ utf8Cont b3 ∧ 0x10000 ≤ utf8Val4 b b1 b2 b3 ∧
    utf8Val4 b b1 b2 b3 < 0x110000

instance (b b1 b2 b3 : Nat) : Decidable (utf8Guard4 b b1 b2 b3) := by
  unfold utf8Guard4; infer_instance

/-- Strict UTF-8 decoding, mirroring the Rust standard library's UTF-8
validation: rejects stray continuation bytes (and the never-valid leads
`0xC0`/`0xC1`/`0xF5` and above), overlong encodings, surrogates, code points
above `0x10FFFF` and truncated sequences. Returns the decoded scalar values,
or `none` when the bytes are not valid UTF-8. The cases are dispatched on how
many bytes are available so that the recursion is structural. -/
def utf8Decode : List Nat → Option (List Nat)
  | [] => some []
  | [b] => if b < 0x80 then some [b] else none
  | [b, b1] =>
    if b < 0x80 then (utf8Decode [b1]).map (b :: ·)
    else if b < 0xC2 then none
    else if b < 0xE0 then (if utf8Cont b1 then some [utf8Val2 b b1] else none)
    else none
  | [b, b1, b2] =>
    if b < 0x80 then (utf8Decode [b1, b2]).map (b :: ·)
    else if b < 0xC2 then none
    else if b < 0xE0 then
      (if utf8Cont b1 then (utf8Decode [b2]).map (utf8Val2 b b1 :: ·) else none)
    else if b < 0xF0 then (if utf8Guard3 b b1 b2 then some [utf8Val3 b b1 b2] else none)
    else none
  | b :: b1 :: b2 :: b3 :: rest =>
    if b < 0x80 then (utf8Decode (b1 :: b2 :: b3 :: rest)).map (b :: ·)
    else if b < 0xC2 then none
    else if b < 0xE0 then
      (if utf8Cont b1 then (utf8Decode (b2 :: b3 :: rest)).map (utf8Val2 b b1 :: ·) else none)
    else if b < 0xF0 then
      (if utf8Guard3 b b1 b2 then (utf8Decode (b3 :: rest)).map (utf8Val3 b b1 b2 :: ·) else none)
    else if b < 0xF5 then
      (if utf8Guard4 b b1 b2 b3 then (utf8Decode rest).map (utf8Val4 b b1 b2 b3 :: ·) else none)
    else none

/-- Lossy UTF-8 decoding, modelling `<[u8]>::to_string_lossy` as used by
`FfiString::to_string` (ffi.rs line 138): it never fails; an invalid sequence
contributes the replacement character `U+FFFD` and decoding continues. On valid
UTF-8 input it agrees with strict decoding, and a lone invalid lead byte
becomes exactly one replacement character; those are the only regimes the
theorems below evaluate it in (on other invalid inputs this model consumes the
examined bytes per replacement, whereas Rust resynchronizes on the maximal
valid subpart, so only the grouping of replacement characters can differ). -/
def utf8DecodeLossy : List Nat → List Nat
  | [] => []
  | [b] => if b < 0x80 then [b] else [0xFFFD]
  | [b, b1] =>
    if b < 0x80 then b :: utf8DecodeLossy [b1]
    else if b < 0xC2 then 0xFFFD :: utf8DecodeLossy [b1]
    else if b < 0xE0 then (if utf8Cont b1 then [utf8Val2 b b1] else [0xFFFD])
    else if b < 0xF5 then [0xFFFD]
    else 0xFFFD :: utf8DecodeLossy [b1]
  | [b, b1, b2] =>
    if b < 0x80 then b :: utf8DecodeLossy [b1, b2]
    else if b < 0xC2 then 0xFFFD :: utf8DecodeLossy [b1, b2]
    else if b < 0xE0 then
      (if utf8Cont b1 then utf8Val2 b b1 :: utf8DecodeLossy [b2]
       else 0xFFFD :: utf8DecodeLossy [b2])
    else if b < 0xF0 then (if utf8Guard3 b b1 b2 then [utf8Val3 b b1 b2] else [0xFFFD])
    else if b < 0xF5 then [0xFFFD]
    else 0xFFFD :: utf8DecodeLossy [b1, b2]
  | b :: b1 :: b2 :: b3 :: rest =>
    if b < 0x80 then b :: utf8DecodeLossy (b1 :: b2 :: b3 :: rest)
    else if b < 0xC2 then 0xFFFD :: utf8DecodeLossy (b1 :: b2 :: b3 :: rest)
    else if b < 0xE0 then
      (if utf8Cont b1 then utf8Val2 b b1 else 0xFFFD) :: utf8DecodeLossy (b2 :: b3 :: rest)
    else if b < 0xF0 then
      (if utf8Guard3 b b1 b2 then utf8Val3 b b1 b2 else 0xFFFD) :: utf8DecodeLossy (b3 :: rest)
    else if b < 0xF5 then
      (if utf8Guard4 b b1 b2 b3 then utf8Val4 b b1 b2 b3 else 0xFFFD) :: utf8DecodeLossy rest
    else 0xFFFD :: utf8DecodeLossy (b1 :: b2 :: b3 :: rest)

/-- Embedding of `CStr::from_bytes_until_nul` as used by `FfiString::to_string`
(ffi.rs line 136): scan for the first null byte; return the bytes strictly
before it, or fail when no null occurs in the buffer. -/
def bytesUntilNul : List Nat → Option (List Nat)
  | [] => none
  | b :: rest => if b = 0 then some [] else (bytesUntilNul rest).map (b :: ·)

/-- Embedding of `FfiString` (ffi.rs lines 28-30): a fixed-length byte buffer
used to receive a string via FFI. -/
structure FfiString where
  s : List Nat
  deriving DecidableEq, Repr

/-- Embedding of `FfiString::with_capacity` (ffi.rs lines 115-118): asserts the
capacity is nonzero (`Option.none` models the `assert!` panic) and allocates a
zero-filled buffer of that many bytes. -/
def FfiString.with_capacity (len : Nat) : Option FfiString :=
  if len = 0 then none else some ⟨List.replicate len 0⟩

/-- Embedding of `FfiString::max_chars` (ffi.rs lines 127-129). -/
def FfiString.max_chars (f : FfiString) : Nat := f.s.length

/-- Embedding of `FfiString::to_string` (ffi.rs lines 135-140): find the bytes
up to the first null terminator (`UhdError::Unknown` if there is none), then
convert them with the lossy UTF-8 conversion. -/
def FfiString.to_string (f : FfiString) : Except UhdError (List Nat) :=
  match bytesUntilNul f.s with
  | none => Except.error UhdError.Unknown
  | some bytes => Except.ok (utf8DecodeLossy bytes)

/-- Modelled from the spec: the native call populating an `FfiString` is not
under `src/` (it is the external driver reached through the bindings crate).
Per the spec (§4.2) it "writes a null-terminated string of at most
`capacity-1` bytes" into the caller's zero-filled buffer: the buffer becomes
the written bytes followed by the remaining zero fill. -/
def FfiString.writeCStr (f : FfiString) (bytes : List Nat) : FfiString :=
  ⟨(bytes ++ List.replicate f.s.length 0).take f.s.length⟩

/-- State of a native-owned `uhd_string_vector_t`: the stored strings, as byte
sequences (the contents of the underlying C++ `std::string`s). -/
structure StringVecState where
  strings : List (List Nat)
  deriving DecidableEq, Repr

/-- Modelled from the spec: `uhd_string_vector_at` is declared in the bindings
crate but implemented in the external native driver (out of scope per §1, a
black box "exposing allocate/free/query functions with status-code returns").
It is modelled with its C-string output convention: for an in-range index it
copies the stored string's bytes up to the first null into the caller's
`strbuffer_len`-byte zero-filled buffer, `strncpy`-style — so a stored string
of `strbuffer_len` or more bytes fills the whole buffer leaving no null
terminator — and returns status `0`; for an out-of-range index it returns a
nonzero status and writes nothing. The result is the pair (status, buffer
contents after the call). -/
def stringVectorAt (st : StringVecState) (index : Nat) (buf : FfiString) :
    Nat × FfiString :=
  match st.strings.get? index with
  | some s =>
      (0, ⟨((s.takeWhile fun b => b ≠ 0) ++ List.replicate buf.s.length 0).take buf.s.length⟩)
  | none => (1, buf)

/-- Embedding of `FfiStringVec::new` (ffi.rs lines 145-153): allocate the
native vector via `OwnedHandle::new` and `.unwrap()` the result, panicking
(`Option.none`) if the allocation failed. The fresh native vector itself is
empty; this function models the wrapper around one observed allocator call. -/
def FfiStringVec.new (alloc : AllocResult) : Option OwnedHandle :=
  (OwnedHandle.new alloc 0).toOption

/-- Embedding of `FfiStringVec::push` (ffi.rs lines 164-169): `CString::new`
panics (`Option.none`) when the text contains an interior NUL character
(`utf8Encode` maps code point `0` to byte `0` and no other code point produces
a zero byte), and otherwise the native `uhd_string_vector_push_back` appends
the encoded bytes to the stored sequence. -/
def FfiStringVec.push (st : StringVecState) (value : List Nat) : Option StringVecState :=
  if 0 ∈ value then none
  else some ⟨st.strings ++ [utf8Encode value]⟩

/-- Repeated `FfiStringVec::push` of a sequence of texts, starting from the
empty vector that `FfiStringVec::new` yields. -/
def FfiStringVec.pushAll (values : List (List Nat)) : Option StringVecState :=
  values.foldlM FfiStringVec.push ⟨[]⟩

/-- Embedding of `FfiStringVec::len` (ffi.rs lines 172-178): the native
`uhd_string_vector_size` reports the current number of stored strings. -/
def FfiStringVec.len (st : StringVecState) : Nat := st.strings.length

/-- Embedding of `FfiStringVec::get` (ffi.rs lines 183-195): allocate a
128-byte `FfiString`, call the native `uhd_string_vector_at` with it, turn a
nonzero status into `None` via `try_uhd!(..).ok()?`, then decode the buffer
with `FfiString::to_string`, again collapsing failure to `None`. The
`FfiString::with_capacity(128)` assertion cannot fire (128 ≠ 0), so the panic
case of `with_capacity` is unreachable here and the buffer is the 128-byte
zero-filled one. -/
def FfiStringVec.get (st : StringVecState) (index : Nat) : Option (List Nat) :=
  match FfiString.with_capacity 128 with
  | none => none
  | some buf =>
    match stringVectorAt st index buf with
    | (status, written) =>
      match (try_uhd status).toOption with
      | none => none
      | some _ => (FfiString.to_string written).toOption

/-- Helper for `FfiStringVec::to_vec`: visit the given indices in order,
unwrapping each `get` (`Option.none` models the `unwrap` panic on a `None`). -/
def FfiStringVec.to_vecAux (st : StringVecState) : List Nat → Option (List (List Nat))
  | [] => some []
  | i :: is =>
    match FfiStringVec.get st i with
    | none => none
    | some s => (FfiStringVec.to_vecAux st is).map (s :: ·)

/-- Embedding of `FfiStringVec::to_vec` (ffi.rs lines 198-204): iterate the
indices `0..len()` in order, pushing `self.get(i).unwrap()` for each. -/
def FfiStringVec.to_vec (st : StringVecState) : Option (List (List Nat)) :=
  FfiStringVec.to_vecAux st (List.range (FfiStringVec.len st))

/-- Embedding of `RxErrorcode` (metadata.rs lines 50-62): the seven variants
declared in the source, with their native discriminant values. -/
inductive RxErrorcode where
  | None
  | Timeout
  | LateCommand
  | BrokenChain
  | Overflow
  | Alignment
  | BadPacket
  deriving DecidableEq, Repr

/-- Modelled from the spec: the numeric values of
`uhd_rx_metadata_error_code_t` come from the bindings crate, which is not
under `src/`; they are the C driver's discriminants (`NONE = 0x0`,
`TIMEOUT = 0x1`, `LATE_COMMAND = 0x2`, `BROKEN_CHAIN = 0x4`,
`OVERFLOW = 0x8`, `ALIGNMENT = 0xC`, `BAD_PACKET = 0xF`). The claims depend
only on the mapped set being exactly the discriminants of the seven declared
variants. -/
def RxErrorcode.val : RxErrorcode → Nat
  | .None => 0x0
  | .Timeout => 0x1
  | .LateCommand => 0x2
  | .BrokenChain => 0x4
  | .Overflow => 0x8
  | .Alignment => 0xC
  | .BadPacket => 0xF

/-- Embedding of `num_enum::TryFromPrimitive` as derived for `RxErrorcode`
(metadata.rs line 50): map a native value back to the unique variant with that
discriminant, or fail when no variant matches. -/
def RxErrorcode.try_from_primitive (v : Nat) : Option RxErrorcode :=
  if v = 0x0 then some .None
  else if v = 0x1 then some .Timeout
  else if v = 0x2 then some .LateCommand
  else if v = 0x4 then some .BrokenChain
  else if v = 0x8 then some .Overflow
  else if v = 0xC then some .Alignment
  else if v = 0xF then some .BadPacket
  else none

/-- Embedding of `RxMetadata::error_code` (metadata.rs lines 93-100): the
native query reports a status and writes a raw error-code value; a nonzero
status propagates through `try_uhd!`, and an unmapped raw value is collapsed
to the error `UhdError::Unknown` by `.or(Err(UhdError::Unknown))?`. -/
def RxMetadata.error_code (status : Nat) (raw : Nat) : Except UhdError RxErrorcode := do
  try_uhd status
  match RxErrorcode.try_from_primitive raw with
  | some c => Except.ok c
  | none => Except.error UhdError.Unknown

/-- Shallow model of a raw `f64` crossing the native boundary: either a finite
value (its exact rational) or one of the non-finite values. -/
inductive F64 where
  | finite (q : ℚ)
  | nan
  | posInf
  | negInf
  deriving DecidableEq

/-- Embedding of `TimeSpec` (per spec §3): integer full seconds plus a
fractional part normalized into `[0,1)`. -/
structure TimeSpec where
  full_secs : Int
  frac_secs : ℚ
  deriving DecidableEq

/-- Modelled from the spec: `TimeSpec::try_from_parts` lives in the time
module, which is not under `src/`. Per the spec (§3, §4.3), construction from
two raw numeric components "fails rather than silently clamping when values
are non-finite or out of representable range": a non-finite fractional part
yields no `TimeSpec`, and otherwise the fractional part is normalized into
`[0,1)` with the carry absorbed into the full seconds, failing when the
implied full-seconds value overflows the 64-bit integer representation. The
call site (metadata.rs line 167) shows the result type is an `Option`. -/
def TimeSpec.try_from_parts (full : Int) (frac : F64) : Option TimeSpec :=
  match frac with
  | .finite q =>
      let total : Int := full + ⌊q⌋
      if total < -(2 ^ 63) ∨ 2 ^ 63 ≤ total then none
      else some ⟨total, q - ⌊q⌋⟩
  | _ => none

/-- Raw values the native layer reports for one `RxMetadata` timestamp query:
the status and boolean written by `uhd_rx_metadata_has_time_spec`, and the
status and `(full_secs, frac_secs)` pair written by
`uhd_rx_metadata_time_spec`. -/
structure RxTimeQuery where
  hasStatus : Nat
  hasTimeSpec : Bool
  timeStatus : Nat
  fullSecs : Int
  fracSecs : F64
  deriving DecidableEq

/-- Embedding of `RxMetadata::time_spec` (metadata.rs lines 146-171): query
whether a timestamp is present (propagating a native failure), return
`Ok(None)` when none is present; otherwise query the raw parts (propagating a
native failure) and return `Ok(TimeSpec::try_from_parts(full, frac))` — note
the `Option` produced by `try_from_parts` is wrapped in `Ok` directly. -/
def RxMetadata.time_spec (m : RxTimeQuery) : Except UhdError (Option TimeSpec) := do
  try_uhd m.hasStatus
  if !m.hasTimeSpec then
    Except.ok none
  else do
    try_uhd m.timeStatus
    Except.ok (TimeSpec.try_from_parts m.fullSecs m.fracSecs)

/-- Embedding of `Channel` (re-exported through usrp/mod.rs): a channel
identity is a direction plus an index. -/
inductive Channel where
  | Rx (index : Nat)
  | Tx (index : Nat)
  deriving DecidableEq, Repr

/-- Index of a channel, as used by `Usrp::channel` (device.rs line 278). -/
def Channel.index : Channel → Nat
  | .Rx i => i
  | .Tx i => i

/-- Embedding of `ChannelConfig::new(self, channel)` as returned by
`Usrp::channel` (device.rs line 279): a configuration view bound to the given
channel identity (the borrowed device reference carries no further data in
this model). -/
structure ChannelConfig where
  channel : Channel
  deriving DecidableEq, Repr

/-- Raw values the native layer reports to one invocation of
`Usrp::rx_channels` / `Usrp::tx_channels` (device.rs lines 286-307): the
status code of `uhd_usrp_get_rx_num_channels` / `uhd_usrp_get_tx_num_channels`
and the channel count it wrote. Each call to `Usrp::channel` performs a fresh
query, so this structure is per-call data: the live counts at that call. -/
structure ChannelCounts where
  rxStatus : Nat
  rxVal : Nat
  txStatus : Nat
  txVal : Nat
  deriving DecidableEq, Repr

/-- Embedding of `Usrp::rx_channels` (device.rs lines 286-295). -/
def Usrp.rx_channels (u : ChannelCounts) : Except UhdError Nat := do
  try_uhd u.rxStatus
  Except.ok u.rxVal

/-- Embedding of `Usrp::tx_channels` (device.rs lines 298-307). -/
def Usrp.tx_channels (u : ChannelCounts) : Except UhdError Nat := do
  try_uhd u.txStatus
  Except.ok u.txVal

/-- The live count consulted by `Usrp::channel` for a given direction
(device.rs lines 274-277). -/
def Usrp.channelCount (u : ChannelCounts) : Channel → Except UhdError Nat
  | .Rx _ => Usrp.rx_channels u
  | .Tx _ => Usrp.tx_channels u

/-- Embedding of `Usrp::channel` (device.rs lines 273-283): re-query the
channel count for the requested direction, then return a `ChannelConfig` when
the index is strictly below the count and `Err(UhdError::Index)` otherwise. -/
def Usrp.channel (u : ChannelCounts) (ch : Channel) : Except UhdError ChannelConfig := do
  let n ← Usrp.channelCount u ch
  if ch.index < n then
    Except.ok ⟨ch⟩
  else
    Except.error UhdError.Index

set_option maxRecDepth 4000 in
theorem utf8DecodeLossy_ascii (b : Nat) (hb : b < 0x80) (r : List Nat) :
    utf8DecodeLossy (b :: r) = b :: utf8DecodeLossy r := by
  match r with
  | [] => simp [utf8DecodeLossy, hb]
  | [x] => simp [utf8DecodeLossy, hb]
  | [x, y] => simp [utf8DecodeLossy, hb]
  | x :: y :: z :: t => simp [utf8DecodeLossy, hb]

set_option maxRecDepth 4000 in
theorem utf8DecodeLossy_two (b b1 : Nat) (hlo : 0xC2 ≤ b) (hhi : b < 0xE0)
    (hc : utf8Cont b1) (r : List Nat) :
    utf8DecodeLossy (b :: b1 :: r) = utf8Val2 b b1 :: utf8DecodeLossy r := by
  have h1 : ¬ b < 0x80 := by omega
  have h2 : ¬ b < 0xC2 := by omega
  match r with
  | [] => simp [utf8DecodeLossy, h1, h2, hhi, hc]
  | [x] => simp [utf8DecodeLossy, h1, h2, hhi, hc]
  | x :: y :: t => simp [utf8DecodeLossy, h1, h2, hhi, hc]

set_option maxRecDepth 4000 in
theorem utf8DecodeLossy_three (b b1 b2 : Nat) (hlo : 0xE0 ≤ b) (hhi : b < 0xF0)
    (hg : utf8Guard3 b b1 b2) (r : List Nat) :
    utf8DecodeLossy (b :: b1 :: b2 :: r) = utf8Val3 b b1 b2 :: utf8DecodeLossy r := by
  have h1 : ¬ b < 0x80 := by omega
  have h2 : ¬ b < 0xC2 := by omega
  have h3 : ¬ b < 0xE0 := by omega
  match r with
  | [] => simp [utf8DecodeLossy, h1, h2, h3, hhi, hg]
  | x :: t => simp [utf8DecodeLossy, h1, h2, h3, hhi, hg]

set_option maxRecDepth 4000 in
theorem utf8DecodeLossy_four (b b1 b2 b3 : Nat) (hlo : 0xF0 ≤ b) (hhi : b < 0xF5)
    (hg : utf8Guard4 b b1 b2 b3) (r : List Nat) :
    utf8DecodeLossy (b :: b1 :: b2 :: b3 :: r) = utf8Val4 b b1 b2 b3 :: utf8DecodeLossy r := by
  have h1 : ¬ b < 0x80 := by omega
  have h2 : ¬ b < 0xC2 := by omega
  have h3 : ¬ b < 0xE0 := by omega
  have h4 : ¬ b < 0xF0 := by omega
  simp [utf8DecodeLossy, h1, h2, h3, h4, hhi, hg]

set_option maxRecDepth 4000 in
theorem utf8DecodeLossy_encodeChar (c : Nat) (h : ValidScalar c) (r : List Nat) :
    utf8DecodeLossy (utf8EncodeChar c ++ r) = c :: utf8DecodeLossy r := by
  obtain ⟨hub, hsur⟩ := h
  unfold utf8EncodeChar
  by_cases hc1 : c < 0x80
  · rw [if_pos hc1]
    simpa using utf8DecodeLossy_ascii c hc1 r
  · rw [if_neg hc1]
    by_cases hc2 : c < 0x800
    · rw [if_pos hc2]
      have := utf8DecodeLossy_two (0xC0 + c / 0x40) (0x80 + c % 0x40)
        (by omega) (by omega) (by unfold utf8Cont; omega) r
      simp only [List.cons_append, List.nil_append] at this ⊢
      rw [this]
      congr 1
      unfold utf8Val2
      omega
    · rw [if_neg hc2]
      by_cases hc3 : c < 0x10000
      · rw [if_pos hc3]
        have hval : utf8Val3 (0xE0 + c / 0x1000) (0x80 + c / 0x40 % 0x40) (0x80 + c % 0x40) = c := by
          unfold utf8Val3; omega
        have := utf8DecodeLossy_three (0xE0 + c / 0x1000) (0x80 + c / 0x40 % 0x40) (0x80 + c % 0x40)
          (by omega) (by omega)
          (by unfold utf8Guard3 utf8Cont; rw [hval]; omega) r
        simp only [List.cons_append, List.nil_append] at this ⊢
        rw [this, hval]
      · rw [if_neg hc3]
        have hval : utf8Val4 (0xF0 + c / 0x40000) (0x80 + c / 0x1000 % 0x40)
            (0x80 + c / 0x40 % 0x40) (0x80 + c % 0x40) = c := by
          unfold utf8Val4; omega
        have := utf8DecodeLossy_four (0xF0 + c / 0x40000) (0x80 + c / 0x1000 % 0x40)
          (0x80 + c / 0x40 % 0x40) (0x80 + c % 0x40)
          (by omega) (by omega)
          (by unfold utf8Guard4 utf8Cont; rw [hval]; omega) r
        simp only [List.cons_append, List.nil_append] at this ⊢
        rw [this, hval]

theorem utf8DecodeLossy_encode (cs : List Nat) (h : ∀ c ∈ cs, ValidScalar c) :
    utf8DecodeLossy (utf8Encode cs) = cs := by
  induction cs with
  | nil => rfl
  | cons c cs ih =>
      rw [utf8Encode, utf8DecodeLossy_encodeChar c (h c (List.mem_cons_self c cs)),
        ih (fun x hx => h x (List.mem_cons_of_mem c hx))]

theorem utf8EncodeChar_ne_zero (c : Nat) (h0 : c ≠ 0) :
    ∀ b ∈ utf8EncodeChar c, b ≠ 0 := by
  intro b hb
  unfold utf8EncodeChar at hb
  by_cases hc1 : c < 0x80
  · rw [if_pos hc1] at hb
    simp at hb
    omega
  · rw [if_neg hc1] at hb
    by_cases hc2 : c < 0x800
    · rw [if_pos hc2] at hb
      simp at hb
      rcases hb with h | h <;> omega
    · rw [if_neg hc2] at hb
      by_cases hc3 : c < 0x10000
      · rw [if_pos hc3] at hb
        simp at hb
        rcases hb with h | h | h <;> omega
      · rw [if_neg hc3] at hb
        simp at hb
        rcases hb with h | h | h | h <;> omega

theorem utf8Encode_ne_zero (cs : List Nat) (h0 : 0 ∉ cs) :
    ∀ b ∈ utf8Encode cs, b ≠ 0 := by
  intro b hb
  induction cs with
  | nil => simp [utf8Encode] at hb
  | cons c cs ih =>
      rw [utf8Encode, List.mem_append] at hb
      rcases hb with h | h
      · exact utf8EncodeChar_ne_zero c (by rintro rfl; exact h0 (List.mem_cons_self 0 cs)) b h
      · exact ih (fun hmem => h0 (List.mem_cons_of_mem c hmem)) h

theorem bytesUntilNul_append (e r : List Nat) (he : ∀ b ∈ e, b ≠ 0) :
    bytesUntilNul (e ++ 0 :: r) = some e := by
  induction e with
  | nil => simp [bytesUntilNul]
  | cons b e ih =>
      rw [List.cons_append, bytesUntilNul, if_neg (he b (List.mem_cons_self b e)),
        ih (fun x hx => he x (List.mem_cons_of_mem b hx))]
      rfl

theorem bytesUntilNul_none (l : List Nat) (h : ∀ b ∈ l, b ≠ 0) :
    bytesUntilNul l = none := by
  induction l with
  | nil => rfl
  | cons b t ih =>
      rw [bytesUntilNul, if_neg (h b (List.mem_cons_self b t)),
        ih (fun x hx => h x (List.mem_cons_of_mem b hx))]
      rfl

theorem takeWhile_append_nul (e r : List Nat) (he : ∀ b ∈ e, b ≠ 0) :
    (e ++ 0 :: r).takeWhile (fun b => b ≠ 0) = e := by
  induction e with
  | nil => simp
  | cons b e ih =>
      rw [List.cons_append, List.takeWhile_cons]
      simp only [decide_eq_true_eq]
      rw [if_pos (he b (List.mem_cons_self b e)), ih (fun x hx => he x (List.mem_cons_of_mem b hx))]

theorem ffiStringVec_get_unfold (st : StringVecState) (i : Nat) :
    FfiStringVec.get st i =
      match st.strings.get? i with
      | none => none
      | some s =>
        (FfiString.to_string
          ⟨((s.takeWhile fun b => b ≠ 0) ++ List.replicate 128 0).take 128⟩).toOption := by
  cases hgi : st.strings.get? i with
  | none => unfold FfiStringVec.get stringVectorAt; rw [hgi]; rfl
  | some s => unfold FfiStringVec.get stringVectorAt; rw [hgi]; rfl

theorem ffiStringVec_get_out_of_range (st : StringVecState) (i : Nat)
    (hi : st.strings.length ≤ i) : FfiStringVec.get st i = none := by
  have hnone : st.strings.get? i = none := List.get?_eq_none.mpr hi
  rw [ffiStringVec_get_unfold, hnone]

theorem ffiStringVec_get_in_range (st : StringVecState) (i : Nat) (s : List Nat)
    (hs : st.strings.get? i = some s) :
    FfiStringVec.get st i =
      if (s.takeWhile fun b => b ≠ 0).length < 128 then
        some (utf8DecodeLossy (s.takeWhile fun b => b ≠ 0))
      else none := by
  rw [ffiStringVec_get_unfold, hs]
  set t := s.takeWhile fun b => b ≠ 0 with ht
  have hmem : ∀ b ∈ t, b ≠ 0 := fun b hb => by
    simpa using List.mem_takeWhile_imp hb
  by_cases hL : t.length < 128
  · rw [if_pos hL]
    have hbuf : (t ++ List.replicate 128 0).take 128 = t ++ List.replicate (128 - t.length) 0 := by
      rw [List.take_append_eq_append_take, List.take_of_length_le (Nat.le_of_lt hL),
        List.take_replicate]
      have hmin : min (128 - t.length) 128 = 128 - t.length := by omega
      rw [hmin]
    dsimp only [FfiString.to_string]
    rw [hbuf]
    have h127 : 128 - t.length = (127 - t.length) + 1 := by omega
    rw [h127, List.replicate_succ, bytesUntilNul_append t _ hmem]
    rfl
  · rw [if_neg hL]
    have hbuf : (t ++ List.replicate 128 0).take 128 = t.take 128 := by
      rw [List.take_append_eq_append_take]
      have h0 : 128 - t.length = 0 := by omega
      rw [h0]
      simp
    dsimp only [FfiString.to_string]
    rw [hbuf, bytesUntilNul_none _ (fun b hb => hmem b (List.mem_of_mem_take hb))]
    rfl

theorem ffiStringVec_to_vecAux_eq_map (st : StringVecState) (is : List Nat) (f : Nat → List Nat)
    (h : ∀ i ∈ is, FfiStringVec.get st i = some (f i)) :
    FfiStringVec.to_vecAux st is = some (is.map f) := by
  induction is with
  | nil => rfl
  | cons i it ih =>
      unfold FfiStringVec.to_vecAux
      rw [h i (List.mem_cons_self i it), ih (fun j hj => h j (List.mem_cons_of_mem i hj))]
      rfl

theorem ffiStringVec_to_vecAux_isSome_iff (st : StringVecState) (is : List Nat) :
    (FfiStringVec.to_vecAux st is).isSome = true ↔
      ∀ i ∈ is, (FfiStringVec.get st i).isSome = true := by
  induction is with
  | nil => simp [FfiStringVec.to_vecAux]
  | cons i it ih =>
      unfold FfiStringVec.to_vecAux
      cases hg : FfiStringVec.get st i with
      | none =>
          simp only [Option.isSome_none]
          constructor
          · intro h; cases h
          · intro h
            have := h i (List.mem_cons_self i it)
            rw [hg] at this
            cases this
      | some s =>
          cases ha : FfiStringVec.to_vecAux st it with
          | none =>
              simp only [Option.map_none']
              rw [ha] at ih
              simp only [Option.isSome_none] at ih
              constructor
              · intro h; cases h
              · intro h
                exact absurd (fun j hj => h j (List.mem_cons_of_mem i hj)) (by simpa using ih)
          | some l =>
              simp only [Option.map_some', Option.isSome_some, true_iff]
              rw [ha] at ih
              simp only [Option.isSome_some, true_iff] at ih
              intro j hj
              rcases List.mem_cons.mp hj with rfl | hmem
              · rw [hg]; rfl
              · exact ih j hmem

theorem list_map_getD_range (l : List (List Nat)) :
    (List.range l.length).map (fun i => l.getD i []) = l := by
  induction l with
  | nil => rfl
  | cons a t ih =>
      rw [List.length_cons, List.range_succ_eq_map, List.map_cons, List.map_map]
      have hcomp : ((fun i => (a :: t).getD i []) ∘ Nat.succ) = fun i => t.getD i [] := by
        funext i
        simp [List.getD_cons_succ]
      rw [hcomp, ih]
      rfl

theorem takeWhile_of_forall (l : List Nat) (h : ∀ b ∈ l, b ≠ 0) :
    (l.takeWhile fun b => b ≠ 0) = l := by
  rw [List.takeWhile_eq_self_iff]
  intro x hx
  simpa using h x hx

theorem ffiStringVec_pushAll_eq (vs : List (List Nat)) (h : ∀ cs ∈ vs, 0 ∉ cs) :
    FfiStringVec.pushAll vs = some ⟨vs.map utf8Encode⟩ := by
  suffices hgen : ∀ st0 : StringVecState,
      vs.foldlM FfiStringVec.push st0 = some ⟨st0.strings ++ vs.map utf8Encode⟩ by
    have := hgen ⟨[]⟩
    simpa [FfiStringVec.pushAll] using this
  induction vs with
  | nil => intro st0; obtain ⟨ls⟩ := st0; simp [List.foldlM_nil]
  | cons cs vt ih =>
      intro st0
      rw [List.foldlM_cons]
      have hp : FfiStringVec.push st0 cs = some ⟨st0.strings ++ [utf8Encode cs]⟩ := by
        unfold FfiStringVec.push
        rw [if_neg (h cs (List.mem_cons_self cs vt))]
      rw [hp]
      simp only [Option.bind_eq_bind, Option.some_bind]
      rw [ih (fun x hx => h x (List.mem_cons_of_mem cs hx))]
      simp [List.append_assoc]

theorem ownedHandle_new_fail_status (a : AllocResult) (fid : Nat) (hs : a.status ≠ 0) :
    OwnedHandle.new a fid = Except.error UhdError.Unknown := by
  unfold OwnedHandle.new try_uhd
  rw [if_neg hs]
  rfl

theorem ownedHandle_new_null (a : AllocResult) (fid : Nat) (hs : a.status = 0)
    (hp : a.ptr = 0) : OwnedHandle.new a fid = Except.error UhdError.Unknown := by
  unfold OwnedHandle.new try_uhd
  rw [if_pos hs, if_pos hp]
  rfl

theorem ownedHandle_new_ok (a : AllocResult) (fid : Nat) (hs : a.status = 0)
    (hp : a.ptr ≠ 0) : OwnedHandle.new a fid = Except.ok ⟨a.ptr, fid⟩ := by
  unfold OwnedHandle.new try_uhd
  rw [if_pos hs, if_neg hp]
  rfl

/-- C1: for every `(alloc, free)` pair, `OwnedHandle::new` invokes `alloc`
exactly once; on a native failure status or a null result it returns an error
and `free` is never invoked; on success with a non-null pointer it returns an
owning wrapper whose `free` fires exactly once, at the end of the wrapper's
lifetime. -/
theorem owned_handle_alloc_free_contract (a : AllocResult) (fid : Nat) :
    (OwnedHandle.lifecycleEvents a fid).count HandleEvent.allocCall = 1 ∧
    ((a.status ≠ 0 ∨ a.ptr = 0) →
      (∃ e, OwnedHandle.new a fid = Except.error e) ∧
      (OwnedHandle.lifecycleEvents a fid).count (HandleEvent.freeCall fid) = 0) ∧
    (a.status = 0 → a.ptr ≠ 0 →
      (∃ h, OwnedHandle.new a fid = Except.ok h ∧ h.freeId = fid) ∧
      (OwnedHandle.lifecycleEvents a fid).count (HandleEvent.freeCall fid) = 1) := by
  by_cases hs : a.status = 0
  · by_cases hp : a.ptr = 0
    · have hnew := ownedHandle_new_null a fid hs hp
      unfold OwnedHandle.lifecycleEvents
      rw [hnew]
      refine ⟨by simp, fun _ => ⟨⟨UhdError.Unknown, rfl⟩, by simp⟩, fun _ hp2 => absurd hp hp2⟩
    · have hnew := ownedHandle_new_ok a fid hs hp
      unfold OwnedHandle.lifecycleEvents
      rw [hnew]
      refine ⟨by simp [OwnedHandle.dropEvents], ?_, fun _ _ => ⟨⟨⟨a.ptr, fid⟩, rfl, rfl⟩, ?_⟩⟩
      · rintro (h | h)
        · exact absurd hs h
        · exact absurd h hp
      · simp [OwnedHandle.dropEvents, List.count_cons]
  · have hnew := ownedHandle_new_fail_status a fid hs
    unfold OwnedHandle.lifecycleEvents
    rw [hnew]
    exact ⟨by simp, fun _ => ⟨⟨UhdError.Unknown, rfl⟩, by simp⟩, fun hs2 _ => absurd hs2 hs⟩

theorem owned_handle_alloc_free_contract_witness :
    (∃ h, OwnedHandle.new ⟨0, 5⟩ 7 = Except.ok h ∧ h.freeId = 7) ∧
    (OwnedHandle.lifecycleEvents ⟨0, 5⟩ 7).count (HandleEvent.freeCall 7) = 1 :=
  (owned_handle_alloc_free_contract ⟨0, 5⟩ 7).2.2 rfl (by decide)

/-- C2: for every `OwnedHandle` that exists, the wrapped pointer is non-null
for its whole observable lifetime: `new` rejects a null pointer with an error,
`from_ptr` panics on a null pointer, the pointer field is simply projected (not
reassigned) by the accessors, and dereference never encounters a null handle. -/
theorem owned_handle_nonnull_invariant (a : AllocResult) (fid p : Nat) :
    (∀ h, OwnedHandle.new a fid = Except.ok h →
      h.handle ≠ 0 ∧ h.as_ptr = h.handle ∧ h.as_mut_ptr = h.handle ∧
        h.deref = some h.handle) ∧
    OwnedHandle.from_ptr 0 fid = none ∧
    (∀ h, OwnedHandle.from_ptr p fid = some h →
      h.handle = p ∧ h.handle ≠ 0 ∧ h.deref = some h.handle) := by
  refine ⟨?_, by unfold OwnedHandle.from_ptr; rw [if_pos rfl], ?_⟩
  · intro h hok
    by_cases hs : a.status = 0
    · by_cases hp : a.ptr = 0
      · rw [ownedHandle_new_null a fid hs hp] at hok; cases hok
      · rw [ownedHandle_new_ok a fid hs hp] at hok
        cases hok
        exact ⟨hp, rfl, rfl, by unfold OwnedHandle.deref; rw [if_neg hp]⟩
    · rw [ownedHandle_new_fail_status a fid hs] at hok; cases hok
  · intro h hsome
    unfold OwnedHandle.from_ptr at hsome
    by_cases hp : p = 0
    · rw [if_pos hp] at hsome; cases hsome
    · rw [if_neg hp] at hsome
      cases hsome
      exact ⟨rfl, hp, by unfold OwnedHandle.deref; rw [if_neg hp]⟩

theorem owned_handle_nonnull_invariant_witness :
    (⟨5, 7⟩ : OwnedHandle).handle ≠ 0 ∧
    (⟨5, 7⟩ : OwnedHandle).as_ptr = (⟨5, 7⟩ : OwnedHandle).handle ∧
    (⟨5, 7⟩ : OwnedHandle).as_mut_ptr = (⟨5, 7⟩ : OwnedHandle).handle ∧
    (⟨5, 7⟩ : OwnedHandle).deref = some (⟨5, 7⟩ : OwnedHandle).handle :=
  (owned_handle_nonnull_invariant ⟨0, 5⟩ 7 5).1 ⟨5, 7⟩ rfl

/-- C3 counterexample: the native value `3` is outside the mapped set, and
reading the error code then yields no value of the `RxErrorcode` enumeration
at all — it returns the error `UhdError::Unknown` of the outer result type;
the enumeration itself has no catch-all `Unknown` variant to yield. -/
theorem rx_error_code_unknown_counterexample :
    RxErrorcode.try_from_primitive 3 = none ∧
    RxMetadata.error_code 0 3 = Except.error UhdError.Unknown ∧
    (∀ c : RxErrorcode, RxErrorcode.val c ≠ 3) := by
  refine ⟨rfl, rfl, ?_⟩
  intro c
  cases c <;> decide

/-- C3 (amended): the metadata error-code type is the closed enumeration
`{None, Timeout, LateCommand, BrokenChain, Overflow, Alignment, BadPacket}`
with no `Unknown` variant; for every native value in the mapped set
`error_code` returns the corresponding variant, and for every native value
outside it `error_code` returns the error value `UhdError::Unknown` on the
outer result type rather than panicking. -/
theorem rx_error_code_closed_enumeration (v : Nat) :
    (∀ c : RxErrorcode, RxErrorcode.try_from_primitive (RxErrorcode.val c) = some c) ∧
    (∀ c, RxErrorcode.try_from_primitive v = some c →
      RxMetadata.error_code 0 v = Except.ok c) ∧
    (RxErrorcode.try_from_primitive v = none →
      RxMetadata.error_code 0 v = Except.error UhdError.Unknown) := by
  refine ⟨fun c => by cases c <;> rfl, ?_, ?_⟩
  · intro c hc
    unfold RxMetadata.error_code
    rw [hc]
    rfl
  · intro hc
    unfold RxMetadata.error_code
    rw [hc]
    rfl

theorem rx_error_code_closed_enumeration_witness :
    RxMetadata.error_code 0 8 = Except.ok RxErrorcode.Overflow ∧
    RxMetadata.error_code 0 3 = Except.error UhdError.Unknown :=
  ⟨(rx_error_code_closed_enumeration 8).2.1 RxErrorcode.Overflow rfl,
   (rx_error_code_closed_enumeration 3).2.2 rfl⟩

/-- C4 counterexample: with the native layer reporting a present timestamp but
a malformed (NaN) fractional value, `time_spec` returns `Ok(None)` — exactly
the same result as the no-timestamp case — instead of failing with an
inspectable error. -/
theorem rx_time_spec_malformed_counterexample :
    RxMetadata.time_spec ⟨0, true, 0, 0, F64.nan⟩ = Except.ok none ∧
    (⟨0, true, 0, 0, F64.nan⟩ : RxTimeQuery).hasTimeSpec = true ∧
    RxMetadata.time_spec ⟨0, false, 0, 0, F64.finite 0⟩ = Except.ok none :=
  ⟨rfl, rfl, rfl⟩

/-- C4 (amended): when the native queries succeed, `time_spec` returns
`Ok(None)` when no timestamp is reported, `Ok(Some ts)` when the reported
parts are well-formed, and `Ok(None)` — not an error, indistinguishable from
the no-timestamp case — when the reported parts are malformed (non-finite
fractional value, or full-seconds overflow after the carry). -/
theorem rx_time_spec_result_classes (m : RxTimeQuery)
    (hhs : m.hasStatus = 0) (hts : m.timeStatus = 0) :
    (m.hasTimeSpec = false → RxMetadata.time_spec m = Except.ok none) ∧
    (m.hasTimeSpec = true →
      ((m.fracSecs = F64.nan ∨ m.fracSecs = F64.posInf ∨ m.fracSecs = F64.negInf) →
        RxMetadata.time_spec m = Except.ok none) ∧
      (∀ q : ℚ, m.fracSecs = F64.finite q →
        ¬(m.fullSecs + ⌊q⌋ < -(2 ^ 63) ∨ 2 ^ 63 ≤ m.fullSecs + ⌊q⌋) →
          RxMetadata.time_spec m = Except.ok (some ⟨m.fullSecs + ⌊q⌋, q - ⌊q⌋⟩)) ∧
      (∀ q : ℚ, m.fracSecs = F64.finite q →
        (m.fullSecs + ⌊q⌋ < -(2 ^ 63) ∨ 2 ^ 63 ≤ m.fullSecs + ⌊q⌋) →
          RxMetadata.time_spec m = Except.ok none)) := by
  obtain ⟨s1, b, s2, full, frac⟩ := m
  dsimp only at hhs hts ⊢
  subst hhs
  subst hts
  cases b
  · constructor
    · intro _
      rfl
    · intro h
      cases h
  · constructor
    · intro h
      cases h
    · intro _
      refine ⟨?_, ?_, ?_⟩
      · rintro (rfl | rfl | rfl) <;> rfl
      · rintro q rfl hrange
        show Except.ok (TimeSpec.try_from_parts full (F64.finite q)) = _
        unfold TimeSpec.try_from_parts
        dsimp only
        rw [if_neg hrange]
      · rintro q rfl hrange
        show Except.ok (TimeSpec.try_from_parts full (F64.finite q)) = _
        unfold TimeSpec.try_from_parts
        dsimp only
        rw [if_pos hrange]

theorem rx_time_spec_result_classes_witness :
    RxMetadata.time_spec ⟨0, true, 0, 4, F64.finite 0⟩ = Except.ok (some ⟨4 + ⌊(0 : ℚ)⌋, (0 : ℚ) - ⌊(0 : ℚ)⌋⟩) :=
  ((rx_time_spec_result_classes ⟨0, true, 0, 4, F64.finite 0⟩ rfl rfl).2 rfl).2.1 0 rfl
    (by norm_num)

/-- C5: `FfiString::to_string` promises in its documentation to fail both when
no null terminator is present and when the bytes before it are not valid
UTF-8, but the implementation calls the lossy conversion, which cannot fail:
on the buffer `[0xFF, 0x00]` the byte before the terminator is invalid UTF-8
(strict decoding rejects it), yet `to_string` returns `Ok` with a replacement
character instead of an error. The missing-terminator failure does occur. -/
theorem ffi_string_to_string_lossy_code_bug :
    FfiString.to_string ⟨[0xFF, 0]⟩ = Except.ok [0xFFFD] ∧
    utf8Decode [0xFF] = none ∧
    FfiString.to_string ⟨[0x61, 0x62]⟩ = Except.error UhdError.Unknown :=
  ⟨rfl, rfl, rfl⟩

/-- C6: channel lookup consults the live channel count for the requested
direction on each call (the count reported by the native query at that call);
an index at or above that count yields `Err(UhdError::Index)` — never a panic,
never a configuration object — and an index below it yields a valid
configuration object for exactly that `(direction, index)` pair. -/
theorem usrp_channel_bounds (u : ChannelCounts) (ch : Channel) (n : Nat)
    (hn : Usrp.channelCount u ch = Except.ok n) :
    (ch.index < n → Usrp.channel u ch = Except.ok ⟨ch⟩) ∧
    (n ≤ ch.index → Usrp.channel u ch = Except.error UhdError.Index) := by
  have hred : Usrp.channel u ch =
      if ch.index < n then Except.ok ⟨ch⟩ else Except.error UhdError.Index := by
    unfold Usrp.channel
    rw [hn]
    rfl
  rw [hred]
  constructor
  · intro h
    rw [if_pos h]
  · intro h
    rw [if_neg (Nat.not_lt.mpr h)]

theorem usrp_channel_bounds_witness :
    (Usrp.channel ⟨0, 2, 0, 1⟩ (Channel.Rx 1) = Except.ok ⟨Channel.Rx 1⟩) ∧
    (Usrp.channel ⟨0, 2, 0, 1⟩ (Channel.Tx 5) = Except.error UhdError.Index) :=
  ⟨(usrp_channel_bounds ⟨0, 2, 0, 1⟩ (Channel.Rx 1) 2 rfl).1 (by decide),
   (usrp_channel_bounds ⟨0, 2, 0, 1⟩ (Channel.Tx 5) 1 rfl).2 (by decide)⟩

/-- C8: for every capacity `N ≥ 1` and text `s` whose UTF-8 encoding is
strictly shorter than `N` bytes, writing `s` as a null-terminated string into
a fresh `FfiString` of capacity `N` and then calling `to_string` returns
exactly `s`. (A null-terminated C string cannot contain an interior null, so
the text contains no NUL character.) -/
theorem ffi_string_roundtrip (N : Nat) (cs : List Nat) (f : FfiString)
    (hN : 1 ≤ N) (hcap : FfiString.with_capacity N = some f)
    (hv : ∀ c ∈ cs, ValidScalar c) (hz : 0 ∉ cs)
    (hlen : (utf8Encode cs).length < N) :
    (f.writeCStr (utf8Encode cs)).to_string = Except.ok cs := by
  unfold FfiString.with_capacity at hcap
  rw [if_neg (by omega)] at hcap
  cases hcap
  unfold FfiString.writeCStr FfiString.to_string
  dsimp only
  rw [List.length_replicate]
  have hne : ∀ b ∈ utf8Encode cs, b ≠ 0 := utf8Encode_ne_zero cs hz
  have hbuf : (utf8Encode cs ++ List.replicate N 0).take N =
      utf8Encode cs ++ List.replicate (N - (utf8Encode cs).length) 0 := by
    rw [List.take_append_eq_append_take, List.take_of_length_le (Nat.le_of_lt hlen),
      List.take_replicate]
    have hmin : min (N - (utf8Encode cs).length) N = N - (utf8Encode cs).length := by omega
    rw [hmin]
  rw [hbuf]
  have hsucc : N - (utf8Encode cs).length = (N - (utf8Encode cs).length - 1) + 1 := by omega
  rw [hsucc, List.replicate_succ, bytesUntilNul_append _ _ hne]
  show Except.ok (utf8DecodeLossy (utf8Encode cs)) = Except.ok cs
  rw [utf8DecodeLossy_encode cs hv]

theorem ffi_string_roundtrip_witness :
    ((⟨List.replicate 4 0⟩ : FfiString).writeCStr (utf8Encode [0x61])).to_string =
      Except.ok [0x61] :=
  ffi_string_roundtrip 4 [0x61] ⟨List.replicate 4 0⟩ (by decide) rfl
    (by decide) (by decide) (by decide)

set_option maxRecDepth 10000 in
/-- C7 counterexample: push a single 128-character ASCII text onto an empty
list; the push succeeds and the element is in range (`0 < len`), yet `get 0`
returns `None` instead of the pushed value, because the stored string does not
fit the fixed 128-byte retrieval buffer. -/
theorem growable_string_list_get_counterexample :
    FfiStringVec.pushAll [List.replicate 128 0x61] = some ⟨[List.replicate 128 0x61]⟩ ∧
    0 < FfiStringVec.len ⟨[List.replicate 128 0x61]⟩ ∧
    FfiStringVec.get ⟨[List.replicate 128 0x61]⟩ 0 = none := by
  refine ⟨?_, by decide, ?_⟩ <;> decide

/-- C7 (amended): for pushed texts that contain no NUL character and whose
encodings fit the fixed 128-byte retrieval buffer (encoded length < 128),
`get i` returns `Some` of the `i`-th pushed value for `i < len()` and `None`
for `i ≥ len()`, regardless of push order and contents, and `to_sequence`
materializes the full list by iterating `0..len()` in order. -/
theorem growable_string_list_get_spec (vs : List (List Nat)) (st : StringVecState)
    (hpush : FfiStringVec.pushAll vs = some st)
    (hok : ∀ cs ∈ vs, (∀ c ∈ cs, ValidScalar c) ∧ 0 ∉ cs ∧ (utf8Encode cs).length < 128) :
    FfiStringVec.len st = vs.length ∧
    (∀ i, vs.length ≤ i → FfiStringVec.get st i = none) ∧
    (∀ i, i < vs.length → FfiStringVec.get st i = some (vs.getD i [])) ∧
    FfiStringVec.to_vec st = some vs := by
  have hst : st = ⟨vs.map utf8Encode⟩ := by
    have h2 := ffiStringVec_pushAll_eq vs (fun cs h => (hok cs h).2.1)
    rw [hpush] at h2
    exact Option.some_inj.mp h2
  subst hst
  have hlen : FfiStringVec.len ⟨vs.map utf8Encode⟩ = vs.length := by
    unfold FfiStringVec.len
    exact List.length_map vs utf8Encode
  have hget : ∀ i, i < vs.length →
      FfiStringVec.get ⟨vs.map utf8Encode⟩ i = some (vs.getD i []) := by
    intro i hi
    have hgd : vs.getD i [] = vs.get ⟨i, hi⟩ := List.getD_eq_getElem vs [] hi
    have hmem : vs.get ⟨i, hi⟩ ∈ vs := List.get_mem vs i hi
    obtain ⟨hval, hnz, hfit⟩ := hok _ hmem
    have hs : (vs.map utf8Encode).get? i = some (utf8Encode (vs.get ⟨i, hi⟩)) := by
      rw [List.get?_map, List.get?_eq_get hi]
      rfl
    have htw : ((utf8Encode (vs.get ⟨i, hi⟩)).takeWhile fun b => b ≠ 0) =
        utf8Encode (vs.get ⟨i, hi⟩) :=
      takeWhile_of_forall _ (utf8Encode_ne_zero _ hnz)
    rw [ffiStringVec_get_in_range ⟨vs.map utf8Encode⟩ i _ hs, htw, if_pos hfit,
      utf8DecodeLossy_encode _ hval, hgd]
  refine ⟨hlen, ?_, hget, ?_⟩
  · intro i hi
    exact ffiStringVec_get_out_of_range _ i (by simpa [List.length_map] using hi)
  · unfold FfiStringVec.to_vec
    rw [hlen]
    rw [ffiStringVec_to_vecAux_eq_map _ _ (fun i => vs.getD i [])
      (fun i hi => hget i (List.mem_range.mp hi))]
    rw [list_map_getD_range]

theorem growable_string_list_get_spec_witness :
    FfiStringVec.to_vec ⟨[[0x61, 0x62]]⟩ = some [[0x61, 0x62]] :=
  (growable_string_list_get_spec [[0x61, 0x62]] ⟨[[0x61, 0x62]]⟩ (by decide)
    (by decide)).2.2.2

/-- C9 counterexample: when the native allocator fails (nonzero status),
`OwnedHandle::new` does surface an error value — but `FfiStringVec::new`
unwraps it and panics (modelled by `none`) instead of propagating it. -/
theorem ffi_string_vec_new_counterexample :
    OwnedHandle.new ⟨100, 0⟩ 0 = Except.error UhdError.Unknown ∧
    FfiStringVec.new ⟨100, 0⟩ = none :=
  ⟨rfl, rfl⟩

/-- C9 (amended): `OwnedHandle::new` surfaces a native allocation failure as a
distinct error value, but `FfiStringVec::new` calls `.unwrap()` on it and so
panics on allocation failure rather than returning an error; only on a
successful non-null allocation does it return the wrapper. -/
theorem ffi_string_vec_new_unwraps (a : AllocResult) :
    (a.status = 0 → a.ptr ≠ 0 → FfiStringVec.new a = some ⟨a.ptr, 0⟩) ∧
    ((a.status ≠ 0 ∨ a.ptr = 0) →
      (∃ e, OwnedHandle.new a 0 = Except.error e) ∧ FfiStringVec.new a = none) := by
  constructor
  · intro hs hp
    unfold FfiStringVec.new
    rw [ownedHandle_new_ok a 0 hs hp]
    rfl
  · intro hfail
    have herr : OwnedHandle.new a 0 = Except.error UhdError.Unknown := by
      by_cases hs : a.status = 0
      · rcases hfail with h | h
        · exact absurd hs h
        · exact ownedHandle_new_null a 0 hs h
      · exact ownedHandle_new_fail_status a 0 hs
    refine ⟨⟨UhdError.Unknown, herr⟩, ?_⟩
    unfold FfiStringVec.new
    rw [herr]
    rfl

theorem ffi_string_vec_new_unwraps_witness :
    (∃ e, OwnedHandle.new ⟨1, 0⟩ 0 = Except.error e) ∧ FfiStringVec.new ⟨1, 0⟩ = none :=
  (ffi_string_vec_new_unwraps ⟨1, 0⟩).2 (Or.inl (by decide))

set_option maxRecDepth 2000 in
/-- C10 counterexample: the list holding the single stored byte string
`[0xFF]` — which fits the buffer but is not valid text (strict UTF-8 decoding
rejects it) — still makes `to_vec` return successfully, with the lossily
converted replacement character: success does not require that stored strings
decode as text, because the conversion is lossy. -/
theorem to_vec_invalid_text_counterexample :
    FfiStringVec.to_vec ⟨[[0xFF]]⟩ = some [[0xFFFD]] ∧ utf8Decode [0xFF] = none := by
  constructor <;> decide

/-- C10 (amended): `get` retrieves elements through a fixed 128-byte buffer:
for an in-range index whose stored string (with its null terminator) does not
fit in 128 bytes — i.e. whose C-string length is at least 128 — `get` returns
`None` just as for an out-of-range index, and `to_vec`, which unwraps every
`get` over `0..len()`, panics on such a list; `to_vec` returns successfully
exactly when every stored string fits the internal buffer (decoding never
fails, because the conversion is lossy). -/
theorem to_vec_buffer_bound (st : StringVecState) :
    (∀ i s, st.strings.get? i = some s →
      128 ≤ (s.takeWhile fun b => b ≠ 0).length → FfiStringVec.get st i = none) ∧
    ((FfiStringVec.to_vec st).isSome = true ↔
      ∀ s ∈ st.strings, (s.takeWhile fun b => b ≠ 0).length < 128) := by
  have hget : ∀ i s, st.strings.get? i = some s →
      128 ≤ (s.takeWhile fun b => b ≠ 0).length → FfiStringVec.get st i = none := by
    intro i s hs hlong
    rw [ffiStringVec_get_in_range st i s hs, if_neg (by omega)]
  refine ⟨hget, ?_⟩
  unfold FfiStringVec.to_vec
  rw [ffiStringVec_to_vecAux_isSome_iff]
  constructor
  · intro h s hmem
    obtain ⟨i, hi⟩ := List.mem_iff_get?.mp hmem
    have hlt : i < st.strings.length := (List.get?_eq_some.mp hi).1
    have := h i (List.mem_range.mpr hlt)
    by_contra hlong
    rw [hget i s hi (by omega)] at this
    cases this
  · intro h i hi
    have hlt : i < st.strings.length := List.mem_range.mp hi
    obtain ⟨a, ha⟩ : ∃ a, st.strings.get? i = some a := ⟨_, List.get?_eq_get hlt⟩
    rw [ffiStringVec_get_in_range st i a ha, if_pos (h a (List.get?_mem ha))]
    rfl

set_option maxRecDepth 10000 in
theorem to_vec_buffer_bound_witness :
    FfiStringVec.get ⟨[List.replicate 128 0x62]⟩ 0 = none :=
  (to_vec_buffer_bound ⟨[List.replicate 128 0x62]⟩).1 0 (List.replicate 128 0x62) rfl
    (by decide)
